import Mathlib

/-!
Verification of the shard/time-range planner and orchestration control flow of
`tools/bootstrap_commitlogs/main/main.go` (a one-shot commit-log bootstrap tool).

Shallow embedding conventions:
* Absolute time instants and durations are integers (nanoseconds); Go's
  `time.Time`/`time.Duration` arithmetic used by this tool is exact at this
  granularity (`Time.Truncate` computes an exact floor remainder internally),
  so `Int` models it faithfully.
* Go strings are lists of characters.
* `int` (Go, 64-bit platform) values are `Int` with explicit range checks where
  the source performs them (`strconv.Atoi`), and conversions to `uint32` are an
  explicit reduction modulo 2^32, exactly as the source's `uint32(value)`.
* The Go map `result.ShardTimeRanges` is an association list keyed by the
  `uint32` shard id; insertion replaces an existing key in place, matching map
  update semantics.  The external `xtime.Ranges` container is modelled by the
  list of ranges added to it (the tool only ever adds a single range to a
  freshly created container).
-/

set_option autoImplicit false

namespace M3

/-! ## Time window computation (main.go lines 79-83) -/

/-- Two's-complement wraparound of 64-bit signed integer arithmetic: the
representative of `x` modulo `2^64` lying in `[-2^63, 2^63)`.  Go's
`time.Duration` is `int64` nanoseconds, so duration negation and
multiplication wrap through this. -/
def wrap64 (x : Int) : Int :=
  (x + 2 ^ 63).emod (2 ^ 64) - 2 ^ 63

/-- Go `time.Time.Truncate`: for a positive duration `d`, round `t` down to a
multiple of `d` (the remainder computed internally is exact and non-negative);
for `d ≤ 0` the receiver is returned unchanged. -/
def goTruncate (t d : Int) : Int :=
  if d ≤ 0 then t else t - t.emod d

/-- Source line 81: `startInclusive := now.Truncate(blockSize).Add(-blockSize)`.
The negation `-blockSize` is an `int64` duration operation (it wraps at the
minimum `int64`); `Time.Add` itself is exact, `time.Time` holding seconds in a
representation wider than `Duration` nanoseconds. -/
def startInclusive (t blockSize : Int) : Int :=
  goTruncate t blockSize + wrap64 (-blockSize)

/-- Source line 83: `endExclusive := now.Truncate(blockSize).Add(blockSize * 2)`.
The product `blockSize * 2` is an `int64` duration multiplication and wraps:
for flag-parseable block sizes above `(2^63-1)/2` nanoseconds the added
duration is `2·blockSize - 2^64`, not `2·blockSize`. -/
def endExclusive (t blockSize : Int) : Int :=
  goTruncate t blockSize + wrap64 (blockSize * 2)

/-- Modelled from the spec: "referenceTime truncated down to the nearest
multiple of blockSize", i.e. the largest multiple of `blockSize` that does not
exceed `t` (floor division).  Used only to compare the spec's formula with the
code's `goTruncate`. -/
def truncToMultiple (t blockSize : Int) : Int :=
  blockSize * Int.fdiv t blockSize

/-! ## Go string helpers used by the shard-list branch (main.go lines 89-102) -/

/-- Go `unicode.IsSpace`, restricted to the code points it accepts: the ASCII
whitespace characters and the Unicode space characters in the `White_Space`
property that `IsSpace` special-cases. -/
def goIsSpace (c : Char) : Bool :=
  c = ' ' || c = '\t' || c = '\n' || c = '\x0b' || c = '\x0c' || c = '\r' ||
  c = '\x85' || c = '\xa0' ||
  c = ' ' || (' ' ≤ c && c ≤ ' ') ||
  c = ' ' || c = ' ' || c = ' ' || c = ' ' || c = '　'

/-- Go `strings.TrimSpace`: drop leading and trailing whitespace. -/
def trimSpace (s : List Char) : List Char :=
  ((s.dropWhile goIsSpace).reverse.dropWhile goIsSpace).reverse

/-- Go `strings.Split(s, ",")`: split on every comma; the result always has one
more element than the number of commas (never empty). -/
def splitComma : List Char → List (List Char)
  | [] => [[]]
  | c :: cs =>
    if c = ',' then [] :: splitComma cs
    else
      match splitComma cs with
      | [] => [[c]]
      | t :: ts => (c :: t) :: ts

/-- Decimal value of a digit string, `none` if any character is not an ASCII
digit (accumulator form mirroring `strconv`'s digit loop). -/
def digitsVal : List Char → Nat → Option Nat
  | [], acc => some acc
  | c :: rest, acc =>
    if c.isDigit then digitsVal rest (acc * 10 + (c.toNat - 48)) else none

/-- Go `strconv.Atoi` (= `ParseInt(s, 10, 64)` on a 64-bit platform): an
optional `+`/`-` sign followed by at least one ASCII digit, with the value
required to fit in `int64`; any other input (empty string, stray characters,
out-of-range value) yields an error, modelled as `none`. -/
def atoi (s : List Char) : Option Int :=
  match s with
  | [] => none
  | '+' :: rest =>
    match rest, digitsVal rest 0 with
    | _ :: _, some n => if n ≤ 2 ^ 63 - 1 then some (n : Int) else none
    | _, _ => none
  | '-' :: rest =>
    match rest, digitsVal rest 0 with
    | _ :: _, some n => if n ≤ 2 ^ 63 then some (-(n : Int)) else none
    | _, _ => none
  | _ =>
    match digitsVal s 0 with
    | some n => if n ≤ 2 ^ 63 - 1 then some (n : Int) else none
    | none => none

/-- Go conversion `uint32(v)` of a (64-bit) signed integer: reduction modulo
`2^32`. -/
def toUint32 (v : Int) : Nat :=
  (v.emod (2 ^ 32)).toNat

/-! ## ShardTimeRanges (the Go map built at main.go lines 87-109) -/

/-- External `xtime.Range{Start, End}`: a half-open interval over absolute
time. -/
structure Range where
  Start : Int
  End : Int
  deriving DecidableEq, Repr

/-- External `xtime.Ranges`, modelled by the list of ranges added to it; the
tool only ever calls `NewRanges().AddRange(rng)`, producing `[rng]`. -/
abbrev Ranges := List Range

/-- `result.ShardTimeRanges`: a map from `uint32` shard id to `Ranges`,
modelled as an association list with unique keys. -/
abbrev ShardTimeRanges := List (Nat × Ranges)

/-- Keys of the map. -/
def keys (m : ShardTimeRanges) : List Nat :=
  m.map Prod.fst

/-- Go map update `m[k] = v`: replace in place when the key is present,
otherwise append a new entry. -/
def mapSet (m : ShardTimeRanges) (k : Nat) (v : Ranges) : ShardTimeRanges :=
  if k ∈ keys m then
    m.map (fun p => if p.1 = k then (k, v) else p)
  else
    m ++ [(k, v)]

/-! ## The planner (main.go lines 79-114) -/

/-- Outcome of the shard/range planning step: a fatal log exit (shard-list
parse failure), a usage error (neither selection mode valid: prints usage and
exits with status 1), or the completed map. -/
inductive PlanResult where
  | fatalError : PlanResult
  | usageError : PlanResult
  | ok : ShardTimeRanges → PlanResult
  deriving DecidableEq, Repr

/-- The loop at lines 90-102: for each comma-separated token, trim it, fail
fatally if it is empty, `Atoi` it (fatal on error), and store the single time
range under the `uint32`-converted value. -/
def planShardList (toks : List (List Char)) (rng : Range) (acc : ShardTimeRanges) :
    PlanResult :=
  match toks with
  | [] => .ok acc
  | tok :: rest =>
    let t := trimSpace tok
    if t = [] then .fatalError
    else
      match atoi t with
      | none => .fatalError
      | some v => planShardList rest rng (mapSet acc (toUint32 v) [rng])

/-- The loop at lines 104-108: `for i := uint32(0); i < uint32(shardsCount); i++`
mapping every shard in `[0, uint32(shardsCount))` to the same range. -/
def countRanges (n : Nat) (rng : Range) : ShardTimeRanges :=
  (List.range n).map (fun i => (i, [rng]))

/-- The whole planning step (lines 79-114): compute the window, then populate
the map from the explicit shard list when `strings.TrimSpace(shards)` is
non-empty, else from `shardsCount` when it is positive, else print usage and
exit 1. -/
def plan (shards : List Char) (shardsCount t blockSize : Int) : PlanResult :=
  let rng : Range := ⟨startInclusive t blockSize, endExclusive t blockSize⟩
  if trimSpace shards ≠ [] then
    planShardList (splitComma shards) rng []
  else if 0 < shardsCount then
    .ok (countRanges (toUint32 shardsCount) rng)
  else
    .usageError

/-! ## Invoker control flow (main.go lines 200-233) -/

/-- `bootstrap.NewRunOptions().SetIncremental(false)` (lines 211-213): the run
options passed to the single bootstrap call, with incremental save disabled. -/
structure RunOptions where
  incremental : Bool

/-- The run options the tool builds. -/
def runOpts : RunOptions :=
  { incremental := false }

/-- Outcomes of the three fallible external calls the invoker makes, in source
order: `commitlogsrc.NewCommitLogBootstrapper` (line 205),
`namespace.NewMetadata` (line 214), and `source.Bootstrap` (line 218).  Each is
`some msg` when that call would fail. -/
structure ExternalBehavior where
  constructErr : Option String
  nsMetadataErr : Option String
  bootstrapErr : Option String

/-- Observable trace of one invocation of the tool (after flag parsing):
the process exit code, how many times `source.Bootstrap` was called, and the
`ShardTimeRanges` map handed to the bootstrap pipeline (`none` when the
process exited before the pipeline was reached). -/
structure RunTrace where
  exitCode : Nat
  bootstrapCalls : Nat
  shardTimeRanges : Option ShardTimeRanges
  deriving DecidableEq, Repr

/-- The tool's `main` after flag parsing, with the external library calls
abstracted by `ext`: plan the shard/time ranges (exiting on usage or parse
errors), then build the commit-log bootstrapper (fatal on error), the
namespace metadata (fatal on error), and perform the single `Bootstrap` call
(fatal on error).  `log.Fatal*` and the usage path both terminate the process
with exit status 1. -/
def runMain (shards : List Char) (shardsCount t blockSize : Int)
    (ext : ExternalBehavior) : RunTrace :=
  match plan shards shardsCount t blockSize with
  | .fatalError => { exitCode := 1, bootstrapCalls := 0, shardTimeRanges := none }
  | .usageError => { exitCode := 1, bootstrapCalls := 0, shardTimeRanges := none }
  | .ok m =>
    match ext.constructErr with
    | some _ => { exitCode := 1, bootstrapCalls := 0, shardTimeRanges := some m }
    | none =>
      match ext.nsMetadataErr with
      | some _ => { exitCode := 1, bootstrapCalls := 0, shardTimeRanges := some m }
      | none =>
        match ext.bootstrapErr with
        | some _ => { exitCode := 1, bootstrapCalls := 1, shardTimeRanges := some m }
        | none => { exitCode := 0, bootstrapCalls := 1, shardTimeRanges := some m }

/-- Characters of a string literal (convenience for concrete inputs). -/
def chars (s : String) : List Char :=
  s.data

/-- Modelled from the spec: parsing a token "as a non-negative integer"
(claim C3's wording) — an optional `+` sign followed by ASCII digits, with no
negative sign accepted.  Used only to exhibit the divergence between the
spec's wording and `strconv.Atoi`. -/
def parseNonNeg (s : List Char) : Option Nat :=
  match s with
  | [] => none
  | '+' :: rest =>
    match rest, digitsVal rest 0 with
    | _ :: _, some n => some n
    | _, _ => none
  | _ => digitsVal s 0

/-- Reference parse of the comma-separated token list: `none` iff some token
is empty after trimming or fails `Atoi`; otherwise the list of `uint32` shard
ids in token order.  `planShardList` is proved equal to this parse followed by
the map inserts. -/
def parseShardTokens : List (List Char) → Option (List Nat)
  | [] => some []
  | tok :: rest =>
    let t := trimSpace tok
    if t = [] then none
    else
      match atoi t with
      | none => none
      | some v => (parseShardTokens rest).map (fun ids => toUint32 v :: ids)

/-- Insert each id of `ids` into `acc`, every one mapped to the single-range
set `[rng]` (the fold the shard-list loop performs). -/
def insertShards (acc : ShardTimeRanges) (ids : List Nat) (rng : Range) :
    ShardTimeRanges :=
  ids.foldl (fun m k => mapSet m k [rng]) acc

/-! ## Helper lemmas -/

/-- Keys after a map update: unchanged when the key was present, appended
otherwise. -/
theorem keys_mapSet (m : ShardTimeRanges) (k : Nat) (v : Ranges) :
    keys (mapSet m k v) = if k ∈ keys m then keys m else keys m ++ [k] := by
  by_cases h : k ∈ keys m
  · rw [mapSet, if_pos h, if_pos h, keys, keys, List.map_map]
    refine List.map_congr_left ?_
    intro p _
    by_cases hp : p.1 = k
    · simp [hp]
    · simp [hp]
  · rw [mapSet, if_neg h, if_neg h, keys, keys, List.map_append]
    rfl

/-- Membership in the keys after a map update. -/
theorem mem_keys_mapSet (m : ShardTimeRanges) (k a : Nat) (v : Ranges) :
    a ∈ keys (mapSet m k v) ↔ a = k ∨ a ∈ keys m := by
  rw [keys_mapSet]
  by_cases h : k ∈ keys m
  · simp only [h, if_pos]
    constructor
    · exact Or.inr
    · rintro (rfl | ha)
      · exact h
      · exact ha
  · simp [h, or_comm]

/-- A map update preserves distinctness of keys. -/
theorem nodup_keys_mapSet (m : ShardTimeRanges) (k : Nat) (v : Ranges)
    (hm : (keys m).Nodup) : (keys (mapSet m k v)).Nodup := by
  rw [keys_mapSet]
  by_cases h : k ∈ keys m
  · rwa [if_pos h]
  · rw [if_neg h]
    refine hm.append (List.nodup_singleton k) ?_
    intro a ha hak
    rw [List.mem_singleton] at hak
    exact h (hak ▸ ha)

/-- A map update preserves the invariant that every stored value is `v`. -/
theorem values_mapSet (m : ShardTimeRanges) (k : Nat) (v : Ranges)
    (hm : ∀ p ∈ m, p.2 = v) : ∀ p ∈ mapSet m k v, p.2 = v := by
  intro p hp
  unfold mapSet at hp
  by_cases h : k ∈ keys m
  · simp only [h, if_pos, List.mem_map] at hp
    obtain ⟨q, hq, hqp⟩ := hp
    by_cases hqk : q.1 = k
    · simp only [hqk, if_pos] at hqp
      exact hqp ▸ rfl
    · simp only [hqk, if_neg, not_false_iff] at hqp
      exact hqp ▸ hm q hq
  · simp only [h, if_neg, not_false_iff, List.mem_append, List.mem_singleton] at hp
    rcases hp with hp | hp
    · exact hm p hp
    · exact hp ▸ rfl

/-- Unfolding `insertShards` over a cons. -/
theorem insertShards_cons (acc : ShardTimeRanges) (k : Nat) (ids : List Nat)
    (rng : Range) :
    insertShards acc (k :: ids) rng = insertShards (mapSet acc k [rng]) ids rng := rfl

/-- Membership in the keys after inserting a list of shard ids. -/
theorem mem_keys_insertShards (ids : List Nat) (acc : ShardTimeRanges)
    (rng : Range) (a : Nat) :
    a ∈ keys (insertShards acc ids rng) ↔ a ∈ keys acc ∨ a ∈ ids := by
  induction ids generalizing acc with
  | nil => simp [insertShards]
  | cons k rest ih =>
    rw [insertShards_cons, ih, mem_keys_mapSet]
    constructor
    · rintro (⟨rfl | h⟩ | h)
      · exact Or.inr (List.mem_cons_self _ _)
      · exact Or.inl h
      · exact Or.inr (List.mem_cons_of_mem _ h)
    · rintro (h | h)
      · exact Or.inl (Or.inr h)
      · rcases List.mem_cons.mp h with rfl | h
        · exact Or.inl (Or.inl rfl)
        · exact Or.inr h

/-- Inserting a list of shard ids preserves distinctness of keys. -/
theorem nodup_keys_insertShards (ids : List Nat) (acc : ShardTimeRanges)
    (rng : Range) (hacc : (keys acc).Nodup) :
    (keys (insertShards acc ids rng)).Nodup := by
  induction ids generalizing acc with
  | nil => exact hacc
  | cons k rest ih =>
    rw [insertShards_cons]
    exact ih _ (nodup_keys_mapSet _ _ _ hacc)

/-- Every value stored by `insertShards` is the single-range set `[rng]`. -/
theorem values_insertShards (ids : List Nat) (acc : ShardTimeRanges)
    (rng : Range) (hacc : ∀ p ∈ acc, p.2 = [rng]) :
    ∀ p ∈ insertShards acc ids rng, p.2 = [rng] := by
  induction ids generalizing acc with
  | nil => exact hacc
  | cons k rest ih =>
    rw [insertShards_cons]
    exact ih _ (values_mapSet _ _ _ hacc)

/-- The shard-list loop is the reference parse followed by the inserts. -/
theorem planShardList_eq (toks : List (List Char)) (rng : Range)
    (acc : ShardTimeRanges) :
    planShardList toks rng acc =
      match parseShardTokens toks with
      | none => .fatalError
      | some ids => .ok (insertShards acc ids rng) := by
  induction toks generalizing acc with
  | nil => rfl
  | cons tok rest ih =>
    by_cases ht : trimSpace tok = []
    · simp [planShardList, parseShardTokens, ht]
    · cases hv : atoi (trimSpace tok) with
      | none => simp [planShardList, parseShardTokens, ht, hv]
      | some v =>
        simp only [planShardList, parseShardTokens, ht, if_neg, not_false_iff, hv]
        rw [ih]
        cases hp : parseShardTokens rest with
        | none => simp
        | some ids => simp [insertShards_cons]

/-- The reference parse succeeds iff every token is non-empty after trimming
and parses with `Atoi`. -/
theorem parseShardTokens_isSome_iff (toks : List (List Char)) :
    (parseShardTokens toks).isSome ↔
      ∀ tok ∈ toks, trimSpace tok ≠ [] ∧ (atoi (trimSpace tok)).isSome := by
  induction toks with
  | nil => simp [parseShardTokens]
  | cons tok rest ih =>
    simp only [parseShardTokens, List.mem_cons]
    by_cases ht : trimSpace tok = []
    · simp [ht]
    · cases hv : atoi (trimSpace tok) with
      | none => simp [ht, hv]
      | some v =>
        simp only [ht, if_neg, not_false_iff, hv]
        cases hp : parseShardTokens rest with
        | none =>
          rw [hp] at ih
          simp only [Option.map_none', Option.isSome_none, Bool.false_eq_true,
            false_iff] at ih ⊢
          intro hall
          exact ih (fun t hmem => hall t (Or.inr hmem))
        | some ids =>
          rw [hp] at ih
          simp only [Option.map_some', Option.isSome_some, true_iff] at ih ⊢
          rintro t (rfl | hmem)
          · exact ⟨ht, by simp [hv]⟩
          · exact ih t hmem

/-- Characterization of the ids produced by the reference parse: exactly the
`uint32` reductions of the `Atoi` values of the trimmed tokens. -/
theorem mem_parseShardTokens (toks : List (List Char)) (ids : List Nat)
    (h : parseShardTokens toks = some ids) (k : Nat) :
    k ∈ ids ↔ ∃ tok ∈ toks, ∃ v, atoi (trimSpace tok) = some v ∧ k = toUint32 v := by
  induction toks generalizing ids with
  | nil =>
    simp only [parseShardTokens, Option.some.injEq] at h
    simp [← h]
  | cons tok rest ih =>
    simp only [parseShardTokens] at h
    by_cases ht : trimSpace tok = []
    · simp [ht] at h
    · simp only [ht, if_neg, not_false_iff] at h
      cases hv : atoi (trimSpace tok) with
      | none => simp [hv] at h
      | some v =>
        rw [hv] at h
        cases hp : parseShardTokens rest with
        | none => simp [hp] at h
        | some ids' =>
          rw [hp] at h
          simp only [Option.map_some', Option.some.injEq] at h
          subst h
          simp only [List.mem_cons, ih ids' hp]
          constructor
          · rintro (rfl | ⟨t, hmem, w, hw, rfl⟩)
            · exact ⟨tok, Or.inl rfl, v, hv, rfl⟩
            · exact ⟨t, Or.inr hmem, w, hw, rfl⟩
          · rintro ⟨t, rfl | hmem, w, hw, rfl⟩
            · rw [hv, Option.some.injEq] at hw
              subst hw
              exact Or.inl rfl
            · exact Or.inr ⟨t, hmem, w, hw, rfl⟩

/-- Keys of the count-mode map: exactly the ids `[0, n)` in order. -/
theorem keys_countRanges (n : Nat) (rng : Range) :
    keys (countRanges n rng) = List.range n := by
  have hcomp : (Prod.fst ∘ fun i : Nat => (i, [rng])) = id := rfl
  rw [keys, countRanges, List.map_map, hcomp, List.map_id]

/-- Size of the count-mode map. -/
theorem length_countRanges (n : Nat) (rng : Range) :
    (countRanges n rng).length = n := by
  simp [countRanges]

/-- Every value of the count-mode map is the single-range set `[rng]`. -/
theorem values_countRanges (n : Nat) (rng : Range) :
    ∀ p ∈ countRanges n rng, p.2 = [rng] := by
  intro p hp
  simp only [countRanges, List.mem_map, List.mem_range] at hp
  obtain ⟨i, _, rfl⟩ := hp
  rfl

/-- The planner takes the shard-list branch when the trimmed flag is
non-empty. -/
theorem plan_eq_shardList (s : List Char) (n t b : Int)
    (hs : trimSpace s ≠ []) :
    plan s n t b =
      planShardList (splitComma s) ⟨startInclusive t b, endExclusive t b⟩ [] := by
  rw [plan, if_pos hs]

/-- The planner takes the count branch when the trimmed flag is empty and the
count is positive. -/
theorem plan_eq_count (s : List Char) (n t b : Int)
    (hs : trimSpace s = []) (hn : 0 < n) :
    plan s n t b =
      .ok (countRanges (toUint32 n) ⟨startInclusive t b, endExclusive t b⟩) := by
  rw [plan, if_neg (by simp [hs]), if_pos hn]

/-- The planner exits with a usage error when neither selection mode is
valid. -/
theorem plan_eq_usage (s : List Char) (n t b : Int)
    (hs : trimSpace s = []) (hn : ¬ 0 < n) :
    plan s n t b = .usageError := by
  rw [plan, if_neg (by simp [hs]), if_neg hn]

/-- Whenever the planner completes a map, every stored value is the single
computed time range. -/
theorem plan_ok_values (s : List Char) (n t b : Int) (m : ShardTimeRanges)
    (h : plan s n t b = .ok m) :
    ∀ p ∈ m, p.2 = [⟨startInclusive t b, endExclusive t b⟩] := by
  by_cases hs : trimSpace s = []
  · by_cases hn : 0 < n
    · rw [plan_eq_count s n t b hs hn] at h
      cases h
      exact values_countRanges _ _
    · rw [plan_eq_usage s n t b hs hn] at h
      cases h
  · rw [plan_eq_shardList s n t b hs, planShardList_eq] at h
    cases hp : parseShardTokens (splitComma s) with
    | none => rw [hp] at h; cases h
    | some ids =>
      rw [hp] at h
      cases h
      exact values_insertShards ids [] _ (by simp)

/-- For a positive duration, Go's `Time.Truncate` agrees with the spec's
"truncate down to the nearest multiple". -/
theorem goTruncate_eq_truncToMultiple (t b : Int) (hb : 0 < b) :
    goTruncate t b = truncToMultiple t b := by
  rw [goTruncate, if_neg (not_le.mpr hb), truncToMultiple]
  have h1 := Int.fdiv_add_fmod t b
  rw [Int.fmod_eq_emod t hb.le, show t % b = t.emod b from rfl] at h1
  linarith

/-- Characterization justifying `truncToMultiple`: for positive `b` it is a
multiple of `b`, at most `t`, and within `b` of `t`. -/
theorem truncToMultiple_spec (t b : Int) (hb : 0 < b) :
    b ∣ truncToMultiple t b ∧ truncToMultiple t b ≤ t ∧
      t < truncToMultiple t b + b := by
  have hg : goTruncate t b = t - t.emod b := by
    rw [goTruncate, if_neg (not_le.mpr hb)]
  have heq : truncToMultiple t b = t - t.emod b :=
    (goTruncate_eq_truncToMultiple t b hb).symm.trans hg
  have h0 : 0 ≤ t.emod b := Int.emod_nonneg t hb.ne'
  have h1 : t.emod b < b := Int.emod_lt_of_pos t hb
  refine ⟨Dvd.intro _ rfl, ?_, ?_⟩ <;> rw [heq] <;> linarith

/-- Values already in the signed 64-bit range are unchanged by the
wraparound. -/
theorem wrap64_eq_self (x : Int) (h1 : -(2 ^ 63) ≤ x) (h2 : x < 2 ^ 63) :
    wrap64 x = x := by
  have h3 : (x + 2 ^ 63).emod (2 ^ 64) = x + 2 ^ 63 :=
    Int.emod_eq_of_lt (by omega) (by omega)
  rw [wrap64, h3]
  ring

/-- As long as the doubled block size stays within `int64`, the window
arithmetic does not wrap and matches the spec's formulas. -/
theorem window_eq (t b : Int) (hb : 0 < b) (hw : 2 * b ≤ 2 ^ 63 - 1) :
    startInclusive t b = truncToMultiple t b - b ∧
    endExclusive t b = truncToMultiple t b + 2 * b := by
  have hneg : wrap64 (-b) = -b :=
    wrap64_eq_self _ (by linarith) (by linarith)
  have hmul : wrap64 (b * 2) = b * 2 :=
    wrap64_eq_self _ (by linarith) (by linarith)
  rw [startInclusive, endExclusive, hneg, hmul,
    goTruncate_eq_truncToMultiple t b hb]
  exact ⟨by ring, by ring⟩

/-! ## Claims -/

/-- C1 counterexample: the claim quantifies over every blockSize, but the
product `blockSize * 2` at line 83 is an `int64` duration multiplication and
wraps for flag-parseable block sizes above `(2^63-1)/2` nanoseconds: at
blockSize = 1500000h = 5400000000000000000ns (referenceTime 0) the program's
`endExclusive` is trunc + 2·blockSize − 2^64, not trunc + 2·blockSize. -/
theorem claim_C1_cex :
    endExclusive 0 5400000000000000000 =
      truncToMultiple 0 5400000000000000000 + 2 * 5400000000000000000 - 2 ^ 64 ∧
    endExclusive 0 5400000000000000000 ≠
      truncToMultiple 0 5400000000000000000 + 2 * 5400000000000000000 := by
  decide

/-- C1 (amended): for every referenceTime and every positive blockSize whose
double is representable in `int64` (blockSize ≤ (2^63−1)/2 nanoseconds, so
the duration multiplication does not wrap), the planner computes
`startInclusive` as the reference time truncated down to the nearest multiple
of the block size minus one block size, and `endExclusive` as the truncated
time plus two block sizes. -/
theorem claim_C1 (t blockSize : Int) (hb : 0 < blockSize)
    (hw : 2 * blockSize ≤ 2 ^ 63 - 1) :
    startInclusive t blockSize = truncToMultiple t blockSize - blockSize ∧
    endExclusive t blockSize = truncToMultiple t blockSize + 2 * blockSize :=
  window_eq t blockSize hb hw

/-- Witness for C1 at referenceTime 125, blockSize 60 (truncated time 120). -/
theorem claim_C1_witness :
    (0 : Int) < 60 ∧ 2 * 60 ≤ (2 : Int) ^ 63 - 1 ∧
    (startInclusive 125 60 = truncToMultiple 125 60 - 60 ∧
     endExclusive 125 60 = truncToMultiple 125 60 + 2 * 60) :=
  ⟨by decide, by decide, claim_C1 125 60 (by decide) (by decide)⟩

/-- C2 counterexample: the claim quantifies over any blockSize, and fails at
two flag-parseable values. At blockSize = 0 the code's truncation is a no-op,
both window ends equal the reference time, and the strict inequality
`truncate(referenceTime, blockSize) < endExclusive` fails. At the positive
blockSize = 1500000h = 5400000000000000000ns the `int64` product
`blockSize * 2` wraps, so the window length is 3·blockSize − 2^64 ≠
3·blockSize and the truncated time again fails to lie below `endExclusive`. -/
theorem claim_C2_cex :
    (endExclusive 0 0 - startInclusive 0 0 = 3 * 0 ∧
     ¬ (startInclusive 0 0 ≤ goTruncate 0 0 ∧ goTruncate 0 0 < endExclusive 0 0)) ∧
    (endExclusive 0 5400000000000000000 - startInclusive 0 5400000000000000000 ≠
       3 * 5400000000000000000 ∧
     ¬ (goTruncate 0 5400000000000000000 < endExclusive 0 5400000000000000000)) := by
  refine ⟨by decide, by decide, by decide⟩

/-- C2 (amended to positive blockSize with non-wrapping double): the window
spans exactly three block sizes, and the truncated reference time lies inside
`[startInclusive, endExclusive)`. -/
theorem claim_C2 (t blockSize : Int) (hb : 0 < blockSize)
    (hw : 2 * blockSize ≤ 2 ^ 63 - 1) :
    endExclusive t blockSize - startInclusive t blockSize = 3 * blockSize ∧
    startInclusive t blockSize ≤ truncToMultiple t blockSize ∧
    truncToMultiple t blockSize < endExclusive t blockSize := by
  obtain ⟨h1, h2⟩ := window_eq t blockSize hb hw
  rw [h1, h2]
  refine ⟨by ring, by linarith, by linarith⟩

/-- Witness for C2 at referenceTime 125, blockSize 60. -/
theorem claim_C2_witness :
    (0 : Int) < 60 ∧ 2 * 60 ≤ (2 : Int) ^ 63 - 1 ∧
    (endExclusive 125 60 - startInclusive 125 60 = 3 * 60 ∧
     startInclusive 125 60 ≤ truncToMultiple 125 60 ∧
     truncToMultiple 125 60 < endExclusive 125 60) :=
  ⟨by decide, by decide, claim_C2 125 60 (by decide) (by decide)⟩

/-- C3 counterexample: the claim says each token is parsed as a non-negative
integer with a fatal exit on parse failure, but the code uses `strconv.Atoi`,
which accepts a sign: on shards="-1" (blockSize 600, referenceTime 0) the
token "-1" fails a non-negative parse, yet the planner does not exit fatally —
it produces the map entry 4294967295. -/
theorem claim_C3_cex :
    parseNonNeg (trimSpace (chars "-1")) = none ∧
    plan (chars "-1") 8192 0 600 = .ok [(4294967295, [⟨-600, 1200⟩])] ∧
    plan (chars "-1") 8192 0 600 ≠ .fatalError := by
  refine ⟨by decide, by decide, by decide⟩

/-- C3 (amended): with an explicit shard list supplied, the planner splits on
commas, trims whitespace from each token, exits fatally on any token that is
empty after trimming or that fails to parse as a signed integer
(`strconv.Atoi`), and maps every parsed shard — reduced modulo 2^32 to an
unsigned 32-bit id — to the single TimeRange `[startInclusive, endExclusive)`. -/
theorem claim_C3 (s : List Char) (n t b : Int) (hs : trimSpace s ≠ []) :
    ((∃ tok ∈ splitComma s, trimSpace tok = [] ∨ atoi (trimSpace tok) = none) →
        plan s n t b = .fatalError) ∧
    (∀ m, plan s n t b = .ok m →
        (∀ k, k ∈ keys m ↔
            ∃ tok ∈ splitComma s, ∃ v, atoi (trimSpace tok) = some v ∧
              k = toUint32 v) ∧
        ∀ p ∈ m, p.2 = [⟨startInclusive t b, endExclusive t b⟩]) := by
  rw [plan_eq_shardList s n t b hs, planShardList_eq]
  cases hp : parseShardTokens (splitComma s) with
  | none =>
    refine ⟨fun _ => rfl, fun m hm => ?_⟩
    cases hm
  | some ids =>
    constructor
    · rintro ⟨tok, hmem, hbad⟩
      have hsome := (parseShardTokens_isSome_iff (splitComma s)).mpr
      exfalso
      have : (parseShardTokens (splitComma s)).isSome := by rw [hp]; rfl
      have hall := (parseShardTokens_isSome_iff (splitComma s)).mp this
      obtain ⟨hne, hsome'⟩ := hall tok hmem
      rcases hbad with hbad | hbad
      · exact hne hbad
      · rw [hbad] at hsome'
        exact Bool.noConfusion hsome'
    · rintro m hm
      cases hm
      constructor
      · intro k
        rw [mem_keys_insertShards, mem_parseShardTokens (splitComma s) ids hp]
        simp [keys]
      · exact values_insertShards ids [] _ (by simp)

/-- Witness for C3: shards="1, 2, abc" has a non-empty trimmed flag, the token
" abc" fails `Atoi` after trimming, and the planner exits fatally. -/
theorem claim_C3_witness :
    trimSpace (chars "1, 2, abc") ≠ [] ∧
    plan (chars "1, 2, abc") 8192 0 600 = .fatalError :=
  ⟨by decide,
    (claim_C3 (chars "1, 2, abc") 8192 0 600 (by decide)).1
      ⟨chars " abc", by decide, Or.inr (by decide)⟩⟩

/-- C4: for every explicit shard list (taking precedence over any
shards-count, which is quantified arbitrarily here), the resulting map has
exactly one entry per distinct parsed shard id — duplicates collapse — each
mapped to the single computed TimeRange; concretely shards="5,5,7" yields
exactly the two entries for ids 5 and 7. -/
theorem claim_C4 (s : List Char) (n t b : Int) (ids : List Nat)
    (hs : trimSpace s ≠ []) (hp : parseShardTokens (splitComma s) = some ids) :
    (plan s n t b =
        .ok (insertShards [] ids ⟨startInclusive t b, endExclusive t b⟩) ∧
      (keys (insertShards [] ids ⟨startInclusive t b, endExclusive t b⟩)).Nodup ∧
      (∀ k, k ∈ keys (insertShards [] ids ⟨startInclusive t b, endExclusive t b⟩) ↔
          k ∈ ids) ∧
      (insertShards [] ids ⟨startInclusive t b, endExclusive t b⟩).length =
        ids.dedup.length ∧
      ∀ p ∈ insertShards [] ids ⟨startInclusive t b, endExclusive t b⟩,
        p.2 = [⟨startInclusive t b, endExclusive t b⟩]) ∧
    plan (chars "5,5,7") n t b =
      .ok [(5, [⟨startInclusive t b, endExclusive t b⟩]),
           (7, [⟨startInclusive t b, endExclusive t b⟩])] := by
  have hnodup : (keys (insertShards [] ids ⟨startInclusive t b, endExclusive t b⟩)).Nodup :=
    nodup_keys_insertShards ids [] _ (by simp [keys])
  have hmem : ∀ k, k ∈ keys (insertShards [] ids ⟨startInclusive t b, endExclusive t b⟩) ↔
      k ∈ ids := by
    intro k
    rw [mem_keys_insertShards]
    simp [keys]
  refine ⟨⟨?_, hnodup, hmem, ?_, ?_⟩, ?_⟩
  · rw [plan_eq_shardList s n t b hs, planShardList_eq, hp]
  · have hperm : List.Perm
        (keys (insertShards [] ids ⟨startInclusive t b, endExclusive t b⟩))
        ids.dedup := by
      rw [List.perm_ext_iff_of_nodup hnodup ids.nodup_dedup]
      intro a
      rw [hmem, List.mem_dedup]
    calc (insertShards [] ids ⟨startInclusive t b, endExclusive t b⟩).length
        = (keys (insertShards [] ids ⟨startInclusive t b, endExclusive t b⟩)).length := by
          rw [keys, List.length_map]
      _ = ids.dedup.length := hperm.length_eq
  · exact values_insertShards ids [] _ (by simp)
  · rfl

/-- Witness for C4 at shards="5,5,7" (blockSize 600, referenceTime 0): the
parse yields ids [5, 5, 7] and the planner produces exactly the two entries
for shards 5 and 7, both mapped to [-600, 1200). -/
theorem claim_C4_witness :
    trimSpace (chars "5,5,7") ≠ [] ∧
    parseShardTokens (splitComma (chars "5,5,7")) = some [5, 5, 7] ∧
    plan (chars "5,5,7") 8192 0 600 =
      .ok [(5, [⟨-600, 1200⟩]), (7, [⟨-600, 1200⟩])] :=
  ⟨by decide, by decide,
    (claim_C4 (chars "5,5,7") 8192 0 600 [5, 5, 7] (by decide) (by decide)).2⟩

/-- C5 counterexample: the claim quantifies over every positive shards-count,
but the loop bound is `uint32(shardsCount)`: at shards-count = 2^32 (a valid
64-bit flag value, positive) the produced map is empty rather than having
2^32 entries. -/
theorem claim_C5_cex :
    (0 : Int) < 4294967296 ∧ trimSpace (chars "") = [] ∧
    plan (chars "") 4294967296 0 600 = .ok [] ∧
    ([] : ShardTimeRanges).length = 0 := by
  refine ⟨by decide, by decide, by decide, rfl⟩

/-- C5 (amended to shards-count below 2^32): for every positive shards-count
N < 2^32 with no explicit shard list, the map has exactly N entries, one per
shard id in [0, N), each mapped to the same single TimeRange. -/
theorem claim_C5 (s : List Char) (N t b : Int) (hs : trimSpace s = [])
    (h1 : 0 < N) (h2 : N < 2 ^ 32) :
    plan s N t b =
      .ok (countRanges N.toNat ⟨startInclusive t b, endExclusive t b⟩) ∧
    (countRanges N.toNat ⟨startInclusive t b, endExclusive t b⟩).length = N.toNat ∧
    keys (countRanges N.toNat ⟨startInclusive t b, endExclusive t b⟩) =
      List.range N.toNat ∧
    ∀ p ∈ countRanges N.toNat ⟨startInclusive t b, endExclusive t b⟩,
      p.2 = [⟨startInclusive t b, endExclusive t b⟩] := by
  have hu : toUint32 N = N.toNat := by
    rw [toUint32, show N.emod (2 ^ 32) = N % 2 ^ 32 from rfl,
      Int.emod_eq_of_lt h1.le h2]
  refine ⟨?_, length_countRanges _ _, keys_countRanges _ _, values_countRanges _ _⟩
  rw [plan_eq_count s N t b hs h1, hu]

/-- Witness for C5 at shards-count 3 (blockSize 600, referenceTime 0). -/
theorem claim_C5_witness :
    trimSpace (chars "") = [] ∧ (0 : Int) < 3 ∧ (3 : Int) < 2 ^ 32 ∧
    plan (chars "") 3 0 600 = .ok (countRanges 3 ⟨-600, 1200⟩) :=
  ⟨by decide, by decide, by decide,
    (claim_C5 (chars "") 3 0 600 (by decide) (by decide) (by decide)).1⟩

/-- C6: when the trimmed shards flag is empty and shards-count is not
positive, the tool prints usage and exits with status 1 without ever invoking
the bootstrap pipeline (and without producing a map). -/
theorem claim_C6 (s : List Char) (n t b : Int) (ext : ExternalBehavior)
    (hs : trimSpace s = []) (hn : n ≤ 0) :
    plan s n t b = .usageError ∧
    runMain s n t b ext =
      { exitCode := 1, bootstrapCalls := 0, shardTimeRanges := none } := by
  have hp : plan s n t b = .usageError :=
    plan_eq_usage s n t b hs (not_lt.mpr hn)
  exact ⟨hp, by rw [runMain, hp]⟩

/-- Witness for C6 at shards="" and shards-count 0. -/
theorem claim_C6_witness :
    trimSpace (chars "") = [] ∧ (0 : Int) ≤ 0 ∧
    (plan (chars "") 0 0 600 = .usageError ∧
     runMain (chars "") 0 0 600 ⟨none, none, none⟩ =
       { exitCode := 1, bootstrapCalls := 0, shardTimeRanges := none }) :=
  ⟨by decide, by decide, claim_C6 (chars "") 0 0 600 ⟨none, none, none⟩ (by decide) (by decide)⟩

/-- C7: on shards="1, 2, abc" the planner exits fatally (status 1) at the
parse error on token "abc", before any ShardTimeRanges map is produced and
without invoking the bootstrap pipeline — for every shards-count, window
input and external behavior. -/
theorem claim_C7 (n t b : Int) (ext : ExternalBehavior) :
    plan (chars "1, 2, abc") n t b = .fatalError ∧
    runMain (chars "1, 2, abc") n t b ext =
      { exitCode := 1, bootstrapCalls := 0, shardTimeRanges := none } := by
  have hp : plan (chars "1, 2, abc") n t b = .fatalError := rfl
  exact ⟨hp, by rw [runMain, hp]⟩

/-- C8 counterexample: the claim quantifies over every CLI-supplied blockSize
reaching the planning step, and fails at two flag-parseable values reaching
it unvalidated. blockSize = 0 stores, for shards="1" at referenceTime 0, the
TimeRange [0, 0) with start = end; the positive blockSize = 1500000h =
5400000000000000000ns wraps the `int64` product `blockSize * 2` and stores a
TimeRange with start > end. -/
theorem claim_C8_cex :
    (plan (chars "1") 8192 0 0 = .ok [(1, [⟨0, 0⟩])] ∧
     ¬ ((Range.mk 0 0).Start < (Range.mk 0 0).End)) ∧
    (plan (chars "1") 8192 0 5400000000000000000 =
       .ok [(1, [⟨-5400000000000000000, -7646744073709551616⟩])] ∧
     ¬ ((Range.mk (-5400000000000000000) (-7646744073709551616)).Start <
        (Range.mk (-5400000000000000000) (-7646744073709551616)).End)) := by
  refine ⟨by decide, by decide, by decide⟩

/-- C8 (amended to positive blockSize whose double is representable in
`int64`): every TimeRange the planner constructs and stores in the map
satisfies the invariant start < end, for every combination of shards flag,
shards-count and reference time that completes the planning step. -/
theorem claim_C8 (s : List Char) (n t b : Int) (m : ShardTimeRanges)
    (hb : 0 < b) (hw : 2 * b ≤ 2 ^ 63 - 1) (h : plan s n t b = .ok m) :
    ∀ p ∈ m, ∀ r ∈ p.2, r.Start < r.End := by
  intro p hp r hr
  rw [plan_ok_values s n t b m h p hp, List.mem_singleton] at hr
  subst hr
  show startInclusive t b < endExclusive t b
  obtain ⟨h1, h2⟩ := window_eq t b hb hw
  rw [h1, h2]
  linarith

/-- Witness for C8 at shards="1", blockSize 600, referenceTime 0: the single
stored range [-600, 1200) satisfies start < end. -/
theorem claim_C8_witness :
    (0 : Int) < 600 ∧ 2 * 600 ≤ (2 : Int) ^ 63 - 1 ∧
    plan (chars "1") 8192 0 600 = .ok [(1, [⟨-600, 1200⟩])] ∧
    (Range.mk (-600) 1200).Start < (Range.mk (-600) 1200).End :=
  ⟨by decide, by decide, by decide,
    claim_C8 (chars "1") 8192 0 600 [(1, [⟨-600, 1200⟩])] (by decide) (by decide)
      (by decide) (1, [⟨-600, 1200⟩]) (by decide) ⟨-600, 1200⟩ (by decide)⟩

/-- C9: whenever planning completes, the tool performs at most one bootstrap
attempt — exactly one when construction succeeds — with incremental save
disabled in the run options; a construction failure exits fatally before the
attempt, a bootstrap failure exits fatally after the single attempt, and no
failure is retried or downgraded (the exit code is 1 whenever any external
call fails). -/
theorem claim_C9 (s : List Char) (n t b : Int) (ext : ExternalBehavior)
    (m : ShardTimeRanges) (hm : plan s n t b = .ok m) :
    runOpts.incremental = false ∧
    (runMain s n t b ext).bootstrapCalls ≤ 1 ∧
    (ext.constructErr = none → ext.nsMetadataErr = none →
      (runMain s n t b ext).bootstrapCalls = 1) ∧
    (ext.constructErr.isSome →
      runMain s n t b ext =
        { exitCode := 1, bootstrapCalls := 0, shardTimeRanges := some m }) ∧
    (ext.constructErr = none → ext.nsMetadataErr = none → ext.bootstrapErr.isSome →
      runMain s n t b ext =
        { exitCode := 1, bootstrapCalls := 1, shardTimeRanges := some m }) ∧
    ((ext.constructErr.isSome ∨ ext.nsMetadataErr.isSome ∨ ext.bootstrapErr.isSome) →
      (runMain s n t b ext).exitCode = 1) ∧
    (ext.constructErr = none → ext.nsMetadataErr = none → ext.bootstrapErr = none →
      runMain s n t b ext =
        { exitCode := 0, bootstrapCalls := 1, shardTimeRanges := some m }) := by
  obtain ⟨ce, ne, be⟩ := ext
  rw [runOpts]
  cases ce <;> cases ne <;> cases be <;> simp [runMain, hm]

/-- Witness for C9 at shards="1" with a failing bootstrap call: a single
attempt is made and the process exits with status 1. -/
theorem claim_C9_witness :
    plan (chars "1") 8192 0 600 = .ok [(1, [⟨-600, 1200⟩])] ∧
    runMain (chars "1") 8192 0 600 ⟨none, none, some "io error"⟩ =
      { exitCode := 1, bootstrapCalls := 1,
        shardTimeRanges := some [(1, [⟨-600, 1200⟩])] } :=
  ⟨by decide,
    (claim_C9 (chars "1") 8192 0 600 ⟨none, none, some "io error"⟩
        [(1, [⟨-600, 1200⟩])] (by decide)).2.2.2.2.1 rfl rfl rfl⟩

/-- C10: every shard identifier the planner produces is the source integer
reduced modulo 2^32: a shard-list token parsing to `v` becomes the key
`v mod 2^32` (so "-1" is accepted and becomes shard 4294967295), and in count
mode the loop bound is `shardsCount mod 2^32` (so shards-count = 2^32 yields
an empty map while the bootstrap is still invoked). -/
theorem claim_C10 :
    (∀ n t b : Int, plan (chars "-1") n t b =
        .ok [(4294967295, [⟨startInclusive t b, endExclusive t b⟩])]) ∧
    (∀ (s : List Char) (n t b : Int) (m : ShardTimeRanges) (k : Nat),
      trimSpace s ≠ [] → plan s n t b = .ok m → k ∈ keys m →
        ∃ tok ∈ splitComma s, ∃ v : Int,
          atoi (trimSpace tok) = some v ∧ (k : Int) = v.emod (2 ^ 32)) ∧
    (∀ n t b : Int, 0 < n → plan (chars "") n t b =
        .ok (countRanges (n.emod (2 ^ 32)).toNat
          ⟨startInclusive t b, endExclusive t b⟩)) ∧
    plan (chars "") (2 ^ 32) 0 600 = .ok [] ∧
    (runMain (chars "") (2 ^ 32) 0 600 ⟨none, none, none⟩).bootstrapCalls = 1 := by
  refine ⟨fun n t b => rfl, ?_, ?_, by decide, by decide⟩
  · intro s n t b m k hs h hk
    rw [plan_eq_shardList s n t b hs, planShardList_eq] at h
    cases hp : parseShardTokens (splitComma s) with
    | none => rw [hp] at h; cases h
    | some ids =>
      rw [hp] at h
      cases h
      rw [mem_keys_insertShards] at hk
      rcases hk with hk | hk
      · simp [keys] at hk
      · obtain ⟨tok, hmem, v, hv, rfl⟩ :=
          (mem_parseShardTokens (splitComma s) ids hp k).mp hk
        have h0 : 0 ≤ v.emod (2 ^ 32) := Int.emod_nonneg v (by norm_num)
        exact ⟨tok, hmem, v, hv, by rw [toUint32, Int.toNat_of_nonneg h0]⟩
  · intro n t b hn
    exact plan_eq_count (chars "") n t b rfl hn

/-- Witness for C10's quantified parts at shards="-1": the produced key
4294967295 is (-1) mod 2^32. -/
theorem claim_C10_witness :
    trimSpace (chars "-1") ≠ [] ∧
    plan (chars "-1") 8192 0 600 = .ok [(4294967295, [⟨-600, 1200⟩])] ∧
    4294967295 ∈ keys [(4294967295, [(⟨-600, 1200⟩ : Range)])] ∧
    ∃ tok ∈ splitComma (chars "-1"), ∃ v : Int,
      atoi (trimSpace tok) = some v ∧ ((4294967295 : Nat) : Int) = v.emod (2 ^ 32) :=
  ⟨by decide, by decide, by decide,
    claim_C10.2.1 (chars "-1") 8192 0 600 [(4294967295, [⟨-600, 1200⟩])]
      4294967295 (by decide) (by decide) (by decide)⟩

end M3
